import Mathlib

/-!
Shallow embedding of the bernard-rs core: the SQLite-backed store of drives,
folders, files and changelogs (src/src/model/*.rs), the change-integration and
bootstrap logic (src/src/database.rs), and the coordinator entry points
(src/bernard/src/lib.rs).  SQL statements are modelled over lists of rows with
the foreign-key and trigger behaviour the schema prescribes; transactions are
modelled as `Except`-valued functions where an error means the transaction is
rolled back and the caller keeps the pre-transaction store.
-/

set_option autoImplicit false

namespace Bernard

/-- Folder row (`src/src/model/folder.rs`, struct `Folder`). -/
structure Folder where
  id : String
  driveId : String
  name : String
  trashed : Bool
  parent : Option String
deriving DecidableEq, Repr

/-- Modelled from the spec: the File entity of §3
`(id, drive_id, name, parent_id, trashed, md5, size, mime_type)`;
`model/file.rs` is not under `src/`. -/
structure File where
  id : String
  driveId : String
  name : String
  parent : String
  trashed : Bool
  md5 : String
  size : Nat
  mimeType : String
deriving DecidableEq, Repr

/-- Drive row (`src/src/model/drive.rs`, struct `Drive`). -/
structure DriveRow where
  id : String
  pageToken : String
deriving DecidableEq, Repr

/-- folder_changelog row (`src/src/model/folder.rs`, struct `FolderChangelog`):
snapshot of the folder plus the `deleted` flag. -/
structure FolderChangelogRow where
  id : String
  driveId : String
  name : String
  trashed : Bool
  parent : Option String
  deleted : Bool
deriving DecidableEq, Repr

/-- Modelled from the spec: file_changelog row (§3, "snapshot of a folder/file
at the moment of change plus a boolean `deleted`"); `model/file.rs` is not
under `src/`. -/
structure FileChangelogRow where
  id : String
  driveId : String
  name : String
  parent : String
  trashed : Bool
  md5 : String
  size : Nat
  mimeType : String
  deleted : Bool
deriving DecidableEq, Repr

/-- The relational store: tables `drives`, `folders`, `files`,
`folder_changelog`, `file_changelog` (spec §6, "Persisted state"). -/
structure Store where
  drives : List DriveRow
  folders : List Folder
  files : List File
  folderChangelog : List FolderChangelogRow
  fileChangelog : List FileChangelogRow
deriving DecidableEq, Repr

def emptyStore : Store := ⟨[], [], [], [], []⟩

/-- Modelled from the spec: §4.1 failure classes.  `UniqueViolation` stands for
primary-key conflicts, `DataIntegrity` for foreign-key violations ("Foreign-key
violations during merge are classified as DataIntegrity"); the error module
that performs this classification is not under `src/`. -/
inductive DbError where
  | UniqueViolation
  | DataIntegrity
deriving DecidableEq, Repr

/-- Does a drive row with this id exist? (`drives` primary key / FK target). -/
def driveExists (d : String) (s : Store) : Bool :=
  s.drives.any (fun row => row.id == d)

/-- Does a folder row with this `(id, drive_id)` primary key exist? -/
def folderExists (id driveId : String) (s : Store) : Bool :=
  s.folders.any (fun f => f.id == id && f.driveId == driveId)

/-- Does a file row with this `(id, drive_id)` primary key exist? -/
def fileExists (id driveId : String) (s : Store) : Bool :=
  s.files.any (fun f => f.id == id && f.driveId == driveId)

/-- The changelog row a folder write records (trigger behaviour, spec §4.1). -/
def folderChangelogRowOf (f : Folder) (deleted : Bool) : FolderChangelogRow :=
  ⟨f.id, f.driveId, f.name, f.trashed, f.parent, deleted⟩

/-- The changelog row a file write records (trigger behaviour, spec §4.1). -/
def fileChangelogRowOf (f : File) (deleted : Bool) : FileChangelogRow :=
  ⟨f.id, f.driveId, f.name, f.parent, f.trashed, f.md5, f.size, f.mimeType, deleted⟩

/-- Modelled from the spec: "When the same `(id, drive_id)` is touched twice in
a changelog window, the latest write replaces the earlier (changelog is keyed
on `(id, drive_id)`)" (§4.1); the trigger definitions are not under `src/`. -/
def putFolderChangelog (row : FolderChangelogRow) (log : List FolderChangelogRow) :
    List FolderChangelogRow :=
  log.filter (fun r => !(r.id == row.id && r.driveId == row.driveId)) ++ [row]

/-- File-changelog analogue of `putFolderChangelog`. -/
def putFileChangelog (row : FileChangelogRow) (log : List FileChangelogRow) :
    List FileChangelogRow :=
  log.filter (fun r => !(r.id == row.id && r.driveId == row.driveId)) ++ [row]

/-- Append a folder row together with its `deleted = false` changelog row. -/
def insertFolderRow (f : Folder) (s : Store) : Store :=
  { s with
    folders := s.folders ++ [f]
    folderChangelog := putFolderChangelog (folderChangelogRowOf f false) s.folderChangelog }

/-- `Folder::create` (`folder.rs` 16–42): plain INSERT.  Fails with a unique
violation when the `(id, drive_id)` primary key is taken, and with a
foreign-key violation when the drive row is missing or the declared parent
folder is absent from the same drive after the insert. -/
def folderCreate (f : Folder) (s : Store) : Except DbError Store :=
  if folderExists f.id f.driveId s then .error .UniqueViolation
  else if !driveExists f.driveId s then .error .DataIntegrity
  else
    match f.parent with
    | none => .ok (insertFolderRow f s)
    | some p =>
      if folderExists p f.driveId (insertFolderRow f s) then .ok (insertFolderRow f s)
      else .error .DataIntegrity

/-- `Folder::upsert` (`folder.rs` 44–74): INSERT .. ON CONFLICT `(id, drive_id)`
DO UPDATE SET name/trashed/parent.  Subject to the same foreign keys as
`folderCreate`; records a `deleted = false` changelog row. -/
def folderUpsert (f : Folder) (s : Store) : Except DbError Store :=
  let newFolders :=
    if folderExists f.id f.driveId s then
      s.folders.map (fun g => if g.id == f.id && g.driveId == f.driveId then f else g)
    else s.folders ++ [f]
  let s' := { s with
    folders := newFolders
    folderChangelog := putFolderChangelog (folderChangelogRowOf f false) s.folderChangelog }
  if !driveExists f.driveId s then .error .DataIntegrity
  else
    match f.parent with
    | none => .ok s'
    | some p =>
      if newFolders.any (fun g => g.id == p && g.driveId == f.driveId) then .ok s'
      else .error .DataIntegrity

/-- Ids of the folders of `driveId` doomed by a cascade starting from `acc`:
repeatedly add folders whose parent is already doomed (FK `ON DELETE CASCADE`,
spec §3). -/
def cascadeFolderSet (driveId : String) (folders : List Folder) :
    Nat → List String → List String
  | 0, acc => acc
  | fuel + 1, acc =>
    let more := folders.filter (fun f =>
      f.driveId == driveId && !(acc.contains f.id) &&
        (match f.parent with | some p => acc.contains p | none => false))
    if more.isEmpty then acc
    else cascadeFolderSet driveId folders fuel (acc ++ more.map Folder.id)

/-- `Folder::delete` (`folder.rs` 76–94): DELETE by `(id, drive_id)`.  The
cascade removes descendant folders of the same drive and the files under any
removed folder.  A `deleted = true` changelog row is recorded for the deleted
row itself; cascaded descendants are removed silently (spec §4.5 and S5). -/
def folderDelete (id driveId : String) (s : Store) : Except DbError Store :=
  match s.folders.find? (fun f => f.id == id && f.driveId == driveId) with
  | none => .ok s
  | some target =>
    let doomed := cascadeFolderSet driveId s.folders s.folders.length [id]
    .ok { s with
      folders := s.folders.filter (fun f => !(f.driveId == driveId && doomed.contains f.id))
      files := s.files.filter (fun f => !(f.driveId == driveId && doomed.contains f.parent))
      folderChangelog :=
        putFolderChangelog (folderChangelogRowOf target true) s.folderChangelog }

/-- Append a file row together with its `deleted = false` changelog row. -/
def insertFileRow (f : File) (s : Store) : Store :=
  { s with
    files := s.files ++ [f]
    fileChangelog := putFileChangelog (fileChangelogRowOf f false) s.fileChangelog }

/-- Modelled from the spec: `file_create` (§4.1); `model/file.rs` is not under
`src/` but mirrors `Folder::create`.  The parent must be a folder of the same
drive (§3). -/
def fileCreate (f : File) (s : Store) : Except DbError Store :=
  if fileExists f.id f.driveId s then .error .UniqueViolation
  else if !driveExists f.driveId s then .error .DataIntegrity
  else if folderExists f.parent f.driveId s then .ok (insertFileRow f s)
  else .error .DataIntegrity

/-- Modelled from the spec: `file_upsert` (§4.1); mirrors `Folder::upsert`. -/
def fileUpsert (f : File) (s : Store) : Except DbError Store :=
  let newFiles :=
    if fileExists f.id f.driveId s then
      s.files.map (fun g => if g.id == f.id && g.driveId == f.driveId then f else g)
    else s.files ++ [f]
  if !driveExists f.driveId s then .error .DataIntegrity
  else if folderExists f.parent f.driveId s then
    .ok { s with
      files := newFiles
      fileChangelog := putFileChangelog (fileChangelogRowOf f false) s.fileChangelog }
  else .error .DataIntegrity

/-- Modelled from the spec: `file_delete` (§4.1); mirrors `Folder::delete`
without a cascade (files have no children). -/
def fileDelete (id driveId : String) (s : Store) : Except DbError Store :=
  match s.files.find? (fun f => f.id == id && f.driveId == driveId) with
  | none => .ok s
  | some target =>
    .ok { s with
      files := s.files.filter (fun f => !(f.id == id && f.driveId == driveId))
      fileChangelog := putFileChangelog (fileChangelogRowOf target true) s.fileChangelog }

/-- `Drive::create` (`drive.rs` 10–29): INSERT into `drives`. -/
def driveCreate (id pageToken : String) (s : Store) : Except DbError Store :=
  if driveExists id s then .error .UniqueViolation
  else .ok { s with drives := s.drives ++ [⟨id, pageToken⟩] }

/-- `Drive::get_by_id` (`drive.rs` 31–42). -/
def driveGetById (id : String) (s : Store) : Option DriveRow :=
  s.drives.find? (fun d => d.id == id)

/-- `Drive::update_page_token` (`drive.rs` 44–63): UPDATE, touching no row when
the drive is absent. -/
def driveUpdatePageToken (id pageToken : String) (s : Store) : Store :=
  { s with drives := s.drives.map (fun d => if d.id == id then ⟨d.id, pageToken⟩ else d) }

/-- `Folder::update_name` (`folder.rs` 130–154): UPDATE of the name by
`(id, drive_id)`.  When a row is touched the update trigger records a
`deleted = false` changelog row (spec §4.1 with scenario S3). -/
def folderUpdateName (id driveId name : String) (s : Store) : Store :=
  match s.folders.find? (fun f => f.id == id && f.driveId == driveId) with
  | none => s
  | some f =>
    let f' : Folder := { f with name := name }
    { s with
      folders := s.folders.map (fun g => if g.id == id && g.driveId == driveId then f' else g)
      folderChangelog := putFolderChangelog (folderChangelogRowOf f' false) s.folderChangelog }

/-- `ChangedFolder` (`folder.rs` 157–161). -/
inductive ChangedFolder where
  | Created (f : Folder)
  | Deleted (f : Folder)
deriving DecidableEq, Repr

/-- `From<FolderChangelog> for ChangedFolder` (`folder.rs` 181–196).  Note the
source's match arms: `deleted = true` is sent to `Created` and
`deleted = false` to `Deleted`. -/
def changedFolderOfRow (r : FolderChangelogRow) : ChangedFolder :=
  let folder : Folder := ⟨r.id, r.driveId, r.name, r.trashed, r.parent⟩
  match r.deleted with
  | true => .Created folder
  | false => .Deleted folder

/-- `ChangedFolder::get_all` (`folder.rs` 199–217):
`SELECT * FROM folder_changelog WHERE drive_id = $1`, each row mapped through
the `From` conversion. -/
def changedFolderGetAll (driveId : String) (s : Store) : List ChangedFolder :=
  (s.folderChangelog.filter (fun r => r.driveId == driveId)).map changedFolderOfRow

/-- `ChangedFolder::clear` (`folder.rs` 219–233). -/
def changedFolderClear (driveId : String) (s : Store) : Store :=
  { s with folderChangelog := s.folderChangelog.filter (fun r => !(r.driveId == driveId)) }

/-- Modelled from the spec: `ChangedFile::clear` (§4.1 `changelog_clear`);
`model/file.rs` is not under `src/` but mirrors `ChangedFolder::clear`. -/
def changedFileClear (driveId : String) (s : Store) : Store :=
  { s with fileChangelog := s.fileChangelog.filter (fun r => !(r.driveId == driveId)) }

/-- `clear_changelog` (`database.rs` 25–30): folder clear then file clear. -/
def clearChangelogStore (driveId : String) (s : Store) : Store :=
  changedFileClear driveId (changedFolderClear driveId s)

/-- `Folder::get_children` (`folder.rs` 96–128): ids of the folders of the
drive whose parent is `parentId`; `None` when the row set is empty. -/
def getChildren (parentId driveId : String) (s : Store) : Option (List String) :=
  let rows := (s.folders.filter (fun f => f.parent == some parentId && f.driveId == driveId)).map Folder.id
  if rows.isEmpty then none else some rows

/-- Modelled from the spec: the fetch module's `Item` type (§4.2,
`Item = Folder{...} | File{...}`); `src/src/fetch` is not under `src/` but the
type's shape is fixed by its uses in `database.rs`. -/
inductive Item where
  | folder (f : Folder)
  | file (f : File)
deriving DecidableEq, Repr

/-- `Item::drive_id` accessor used by `item_to_change` (`database.rs` 33). -/
def Item.driveId : Item → String
  | .folder f => f.driveId
  | .file f => f.driveId

/-- `Item::into_id` used by `item_to_change` (`database.rs` 37). -/
def Item.intoId : Item → String
  | .folder f => f.id
  | .file f => f.id

/-- Payload of `Change::DriveChanged` (spec §4.2, `DriveChanged{drive_id, name}`). -/
structure DriveChangeInfo where
  id : String
  name : String
deriving DecidableEq, Repr

/-- Modelled from the spec: the fetch module's `Change` type (§4.2); its shape
is fixed by the match in `merge_changes` (`database.rs` 61–81). -/
inductive Change where
  | DriveChanged (d : DriveChangeInfo)
  | DriveRemoved (id : String)
  | ItemChanged (i : Item)
  | ItemRemoved (id : String)
deriving DecidableEq, Repr

/-- `item_to_change` (`database.rs` 32–40).  Note: this function is defined in
the source but has no caller; in particular `merge_changes` consumes its
`changes` argument directly without applying it. -/
def itemToChange (driveId : String) (item : Item) : Change :=
  if item.driveId == driveId then .ItemChanged item
  else .ItemRemoved item.intoId

/-- `enum FolderChange` (`database.rs` 111–114). -/
inductive FolderChange where
  | Update (f : Folder)
  | Remove
deriving DecidableEq, Repr

/-- `enum FileChange` (`database.rs` 116–119). -/
inductive FileChange where
  | Update (f : File)
  | Remove
deriving DecidableEq, Repr

/-- `HashMap::insert` on an association list: replace the value of an existing
key in place, append a fresh key at the end. -/
def mapInsert {α : Type} (k : String) (v : α) : List (String × α) → List (String × α)
  | [] => [(k, v)]
  | (k', v') :: rest =>
    if k' == k then (k, v) :: rest else (k', v') :: mapInsert k v rest

/-- `HashMap::contains_key` on an association list. -/
def mapContains {α : Type} (k : String) (m : List (String × α)) : Bool :=
  m.any (fun kv => kv.1 == k)

/-- `HashMap::get` on an association list. -/
def mapLookup {α : Type} (k : String) : List (String × α) → Option α
  | [] => none
  | (k', v) :: rest => if k' == k then some v else mapLookup k rest

/-- State of the collection loop of `merge_changes` (`database.rs` 57–81):
the transaction's store (drive renames are applied immediately) and the two
keyed op maps. -/
structure MergeAcc where
  store : Store
  folderChanges : List (String × FolderChange)
  fileChanges : List (String × FileChange)
deriving Repr

/-- One iteration of the `for change in changes` loop of `merge_changes`
(`database.rs` 61–81). -/
def collectStep (driveId : String) (acc : MergeAcc) (c : Change) : MergeAcc :=
  match c with
  | .DriveChanged d =>
    { acc with store := folderUpdateName driveId driveId d.name acc.store }
  | .DriveRemoved _ => acc
  | .ItemChanged (.folder folder) =>
    { acc with folderChanges := mapInsert folder.id (.Update folder) acc.folderChanges }
  | .ItemChanged (.file file) =>
    { acc with fileChanges := mapInsert file.id (.Update file) acc.fileChanges }
  | .ItemRemoved id =>
    if !mapContains id acc.fileChanges then
      { acc with folderChanges := mapInsert id .Remove acc.folderChanges }
    else
      { acc with fileChanges := mapInsert id .Remove acc.fileChanges }

/-- The folder-op application loop of `merge_changes` (`database.rs` 83–94). -/
def applyFolderChanges (driveId : String) :
    List (String × FolderChange) → Store → Except DbError Store
  | [], s => .ok s
  | (fid, c) :: rest, s =>
    match c with
    | .Update folder =>
      match folderUpsert folder s with
      | .ok s' => applyFolderChanges driveId rest s'
      | .error e => .error e
    | .Remove =>
      match folderDelete fid driveId s with
      | .ok s' => applyFolderChanges driveId rest s'
      | .error e => .error e

/-- The file-op application loop of `merge_changes` (`database.rs` 96–106). -/
def applyFileChanges (driveId : String) :
    List (String × FileChange) → Store → Except DbError Store
  | [], s => .ok s
  | (fid, c) :: rest, s =>
    match c with
    | .Update file =>
      match fileUpsert file s with
      | .ok s' => applyFileChanges driveId rest s'
      | .error e => .error e
    | .Remove =>
      match fileDelete fid driveId s with
      | .ok s' => applyFileChanges driveId rest s'
      | .error e => .error e

/-- `merge_changes` (`database.rs` 43–109): inside one transaction, update the
page token, fold the change stream into the two op maps, then apply folder ops
and file ops.  An `.error` result models the transaction erroring before
`tx.commit()`: the caller keeps the pre-transaction store (rollback on drop). -/
def mergeChanges (driveId : String) (changes : List Change) (pageToken : String)
    (s : Store) : Except DbError Store :=
  let s1 := driveUpdatePageToken driveId pageToken s
  let acc := changes.foldl (collectStep driveId) ⟨s1, [], []⟩
  match applyFolderChanges driveId acc.folderChanges acc.store with
  | .error e => .error e
  | .ok s2 => applyFileChanges driveId acc.fileChanges s2

/-- The `if let Item::Folder(folder)` projection of the partitioned listing
(`database.rs` 150–154). -/
def listingFolders (items : List Item) : List Folder :=
  items.filterMap (fun i => match i with | .folder f => some f | .file _ => none)

/-- `folder_map.get(&parent)` (`database.rs` 149–154, 188): grouping the
listing by `parent` and looking a key up returns exactly the listing's folders
with that parent, in listing order. -/
def childrenOf (folders : List Folder) (parent : Option String) : List Folder :=
  folders.filter (fun f => f.parent == parent)

/-- The skip condition of the `for folder in children` body
(`database.rs` 190): `parent.is_some() && !folder_ids.contains(parent)`. -/
def shouldSkip (parent : Option String) (ids : List String) : Bool :=
  match parent with
  | none => false
  | some p => !(ids.contains p)

/-- The `for folder in children` body of `process_folders`
(`database.rs` 189–208): skip a child whose (Some) parent is not in
`folder_ids`; otherwise attempt the insert, and on success record the id and
push it; insert errors are logged and skipped.  Returns the grown id set, the
ids pushed onto the queue (in order), and the store. -/
def processChildren (parent : Option String) :
    List Folder → List String → Store → List String × List (Option String) × Store
  | [], ids, s => (ids, [], s)
  | f :: rest, ids, s =>
    if shouldSkip parent ids then processChildren parent rest ids s
    else
      match folderCreate f s with
      | .ok s' =>
        let r := processChildren parent rest (ids ++ [f.id]) s'
        (r.1, some f.id :: r.2.1, r.2.2)
      | .error _ => processChildren parent rest ids s

/-- The `while let Some(parent) = queue.pop_front()` loop of `process_folders`
(`database.rs` 187–210), with explicit fuel.  Every pop beyond the first
follows a successful insert of a folder with a fresh `(id, drive_id)` key, so
`folders.length + 1` pops suffice for the queue to empty. -/
def processFoldersLoop (driveId : String) (folders : List Folder) :
    Nat → List (Option String) → List String → Store → Store
  | 0, _, _, s => s
  | _ + 1, [], _, s => s
  | fuel + 1, parent :: queueRest, ids, s =>
    let r := processChildren parent (childrenOf folders parent) ids s
    processFoldersLoop driveId folders fuel (queueRest ++ r.2.1) r.1 r.2.2

/-- `process_folders` (`database.rs` 174–212): BFS from the root folder id.
The source returns `sqlx::Result<()>` but every fallible call inside the loop
is matched and logged (lines 198–207), so no error ever propagates; the model
therefore returns the store directly. -/
def processFolders (driveId : String) (folders : List Folder) (rootFolderId : String)
    (s : Store) : Store :=
  processFoldersLoop driveId folders (folders.length + 1) [some rootFolderId] [driveId] s

/-- `insert_files` (`database.rs` 214–241): skip a file whose parent id is not
the id of some folder of the *listing* (`folder_map.values().flatten()`);
otherwise attempt the insert, logging and skipping any error.  Like
`process_folders`, no error ever propagates. -/
def insertFilesLoop (folders : List Folder) : List Item → Store → Store
  | [], s => s
  | .folder _ :: rest, s => insertFilesLoop folders rest s
  | .file f :: rest, s =>
    if !(folders.any (fun folder => folder.id == f.parent)) then
      insertFilesLoop folders rest s
    else
      match fileCreate f s with
      | .ok s' => insertFilesLoop folders rest s'
      | .error _ => insertFilesLoop folders rest s

/-- `add_drive` (`database.rs` 122–172): one transaction creating the drive
row, the root folder (`id == drive_id`, `parent = NULL`, `name = drive_name`),
then the listing's folders in BFS order and its files.  An `.error` result
models the transaction being rolled back: the caller keeps the pre-transaction
store. -/
def dbAddDrive (driveId name pageToken : String) (items : List Item) (s : Store) :
    Except DbError Store :=
  match driveCreate driveId pageToken s with
  | .error e => .error e
  | .ok s1 =>
    match folderCreate ⟨driveId, driveId, name, false, none⟩ s1 with
    | .error e => .error e
    | .ok s2 =>
      .ok (insertFilesLoop (listingFolders items) items
        (processFolders driveId (listingFolders items) driveId s2))

/-- Deterministic model of the remote `Fetcher` (spec §4.2): responses as pure
functions of the request.  `changes d tok` returns the change page starting at
`tok` together with the new token. -/
structure Fetcher where
  driveName : String → String
  startPageToken : String → String
  allFiles : String → List Item
  changes : String → String → List Change × String

/-- `enum Error` (`bernard/src/lib.rs` 24–33). -/
inductive Error where
  | Database (e : DbError)
  | Network
  | PartialChangeList (e : DbError)
deriving DecidableEq, Repr

/-- `From<database::Error> for Error` (`bernard/src/lib.rs` 35–42):
`DataIntegrity` becomes `PartialChangeList`, everything else `Database`. -/
def errorOfDbError (e : DbError) : Error :=
  match e with
  | .DataIntegrity => .PartialChangeList .DataIntegrity
  | .UniqueViolation => .Database .UniqueViolation

/-- `Bernard::add_drive` (`bernard/src/lib.rs` 82–88): fetch the start page
token, the drive name and the listing, run the bootstrap transaction, then
clear the changelog. -/
def coordAddDrive (fetch : Fetcher) (driveId : String) (s : Store) :
    Except Error Unit × Store :=
  match dbAddDrive driveId (fetch.driveName driveId) (fetch.startPageToken driveId)
      (fetch.allFiles driveId) s with
  | .error e => (.error (errorOfDbError e), s)
  | .ok s' => (.ok (), clearChangelogStore driveId s')

/-- `Bernard::sync_drive` (`bernard/src/lib.rs` 101–126): clear the changelog,
look the drive up; when absent delegate to `add_drive`; when present fetch the
change page and short-circuit if the token is unchanged, otherwise merge
(keeping the cleared pre-merge store when the merge transaction rolls back). -/
def syncDrive (fetch : Fetcher) (driveId : String) (s : Store) :
    Except Error Unit × Store :=
  let s0 := clearChangelogStore driveId s
  match driveGetById driveId s0 with
  | none => coordAddDrive fetch driveId s0
  | some drive =>
    let (changes, pageToken) := fetch.changes driveId drive.pageToken
    if pageToken == drive.pageToken then (.ok (), s0)
    else
      match mergeChanges driveId changes pageToken s0 with
      | .ok s' => (.ok (), s')
      | .error e => (.error (errorOfDbError e), s0)

/-- `path_changelog` row (`path.rs` 63–71, struct `PathChangelog`). -/
structure PathChangelogRow where
  id : String
  driveId : String
  path : String
  folder : Bool
  deleted : Bool
  trashed : Bool
deriving DecidableEq, Repr

/-- `InnerPath` (`path.rs` 22–28). -/
structure InnerPath where
  id : String
  driveId : String
  path : String
  trashed : Bool
deriving DecidableEq, Repr

/-- `enum Path` (`path.rs` 7–11). -/
inductive Path where
  | File (p : InnerPath)
  | Folder (p : InnerPath)
deriving DecidableEq, Repr

/-- `From<Path> for InnerPath` (`path.rs` 54–61). -/
def Path.inner : Path → InnerPath
  | .File p => p
  | .Folder p => p

/-- `enum ChangedPath` (`path.rs` 30–34). -/
inductive ChangedPath where
  | Created (p : Path)
  | Deleted (p : Path)
deriving DecidableEq, Repr

/-- `From<ChangedPath> for InnerPath` (`path.rs` 45–52). -/
def ChangedPath.inner : ChangedPath → InnerPath
  | .Created p => p.inner
  | .Deleted p => p.inner

/-- `From<PathChangelog> for Path` (`path.rs` 73–87). -/
def pathOfRow (p : PathChangelogRow) : Path :=
  let inner : InnerPath := ⟨p.id, p.driveId, p.path, p.trashed⟩
  match p.folder with
  | true => .Folder inner
  | false => .File inner

/-- `From<PathChangelog> for ChangedPath` (`path.rs` 89–96). -/
def changedPathOfRow (p : PathChangelogRow) : ChangedPath :=
  match p.deleted with
  | true => .Deleted (pathOfRow p)
  | false => .Created (pathOfRow p)

/-- `ChangedPath::get_all` (`path.rs` 98–124): fetch the drive's rows of the
`path_changelog` view (passed here as `rows`, the view's SQL not being part of
the sources), fold them into a map keyed by path string — later rows replacing
earlier ones — and return the values. -/
def changedPathGetAll (driveId : String) (rows : List PathChangelogRow) :
    List ChangedPath :=
  let fetched := rows.filter (fun r => r.driveId == driveId)
  let uniqueChanges := fetched.foldl (fun m r => mapInsert r.path r m) []
  uniqueChanges.map (fun kv => changedPathOfRow kv.2)

/-- A listing folder is reachable from the root by parent links within the
listing (the hypothesis of spec §8.2), as a fuel-bounded boolean: the parent is
the root itself, or some listing folder that is reachable with less fuel. -/
def reachesRoot (fs : List Folder) (rootId : String) : Nat → Folder → Bool
  | 0, _ => false
  | fuel + 1, f =>
    match f.parent with
    | none => false
    | some p => p == rootId || fs.any (fun g => g.id == p && reachesRoot fs rootId fuel g)

/-- Well-formedness of a bootstrap listing for drive `d`: every folder belongs
to `d`, ids are distinct, and no listing folder reuses the root's id. -/
def ListingOk (fs : List Folder) (d : String) : Prop :=
  (∀ f ∈ fs, f.driveId = d) ∧ (fs.map Folder.id).Nodup ∧ ∀ f ∈ fs, f.id ≠ d

/-- Invariant of the `process_folders` BFS relating the `folder_ids` set and
the transaction's store: every recorded id has a folder row in the drive,
every listing folder whose id is recorded has been inserted as stated, every
folder row of the drive is recorded, and the drive row exists. -/
def StInv (fs : List Folder) (d : String) (ids : List String) (s : Store) : Prop :=
  (∀ x ∈ ids, ∃ g ∈ s.folders, g.id = x ∧ g.driveId = d) ∧
  (∀ f ∈ fs, f.id ∈ ids → f ∈ s.folders) ∧
  (∀ g ∈ s.folders, g.driveId = d → g.id ∈ ids) ∧
  driveExists d s = true

/-- Invariant of the dedup map of `ChangedPath::get_all`: keys are distinct
and every entry is stored under its own path string. -/
def PathMapOk (m : List (String × PathChangelogRow)) : Prop :=
  (m.map Prod.fst).Nodup ∧ ∀ kv ∈ m, kv.2.path = kv.1

/-! Concrete instances used to evaluate the embedding at specific inputs. -/

/-- A folder-changelog row whose `deleted` flag is `true`. -/
def c1Row : FolderChangelogRow := ⟨"f1", "d1", "Docs", false, some "d1", true⟩

def c1Store : Store := ⟨[⟨"d1", "t0"⟩], [], [], [c1Row], []⟩

/-- A folder item arriving in drive `d1`'s change stream after moving to drive
`d2`: its `drive_id` is `d2`. -/
def c2Folder : Folder := ⟨"x", "d2", "X", false, some "d2"⟩

/-- Drives `d1` and `d2`, each with a root folder; folder `x` lives in `d1`. -/
def c2Store : Store :=
  ⟨[⟨"d1", "t0"⟩, ⟨"d2", "u0"⟩],
   [⟨"d1", "d1", "Team", false, none⟩, ⟨"d2", "d2", "Other", false, none⟩,
    ⟨"x", "d1", "X", false, some "d1"⟩], [], [], []⟩

/-- Drive `d1` with its root folder and a pending folder-changelog row. -/
def c3Store : Store :=
  ⟨[⟨"d1", "t0"⟩], [⟨"d1", "d1", "Team", false, none⟩], [],
   [⟨"a", "d1", "A", false, some "d1", false⟩], []⟩

/-- A file whose parent `zz` exists nowhere: upserting it violates the parent
foreign key. -/
def c3File : File := ⟨"f", "d1", "f.bin", "zz", false, "5e4f", 1, "bin"⟩

/-- Remote returning a torn change page: one file change referencing the
never-seen parent `zz`, with a fresh page token. -/
def c3Fetcher : Fetcher :=
  { driveName := fun _ => "Team"
    startPageToken := fun _ => "s0"
    allFiles := fun _ => []
    changes := fun _ _ => ([Change.ItemChanged (Item.file c3File)], "t1") }

def c4FolderA : Folder := ⟨"a", "d1", "A", false, some "d1"⟩

/-- A second listing folder with the same `(id, drive_id)` key as `c4FolderA`:
its insertion fails with a unique violation. -/
def c4FolderA2 : Folder := ⟨"a", "d1", "A again", false, some "d1"⟩

def c4Items : List Item := [.folder c4FolderA, .folder c4FolderA2]

/-- The transaction state `add_drive` reaches just before inserting
`c4FolderA2`: drive row, root folder and `c4FolderA` created. -/
def c4Mid : Store :=
  ((((driveCreate "d1" "t0" emptyStore).bind
      (folderCreate ⟨"d1", "d1", "Team", false, none⟩)).bind
      (folderCreate c4FolderA)).toOption).getD emptyStore

/-- Drive `d1` with its root folder and a pending folder-changelog row. -/
def c5Store : Store :=
  ⟨[⟨"d1", "t0"⟩], [⟨"d1", "d1", "Team", false, none⟩], [],
   [⟨"a", "d1", "A", false, some "d1", false⟩], []⟩

/-- Remote with no activity: `changes` echoes the caller's page token back. -/
def c5Fetcher : Fetcher :=
  { driveName := fun _ => "Team"
    startPageToken := fun _ => "t0"
    allFiles := fun _ => []
    changes := fun _ tok => ([], tok) }

def c6FolderB : Folder := ⟨"b", "d1", "B", false, some "a"⟩

def c6FolderA : Folder := ⟨"a", "d1", "A", false, some "d1"⟩

/-- A listing presenting the child `b` before its parent `a`. -/
def c6Items : List Item := [.folder c6FolderB, .folder c6FolderA]

/-- A file whose parent is the root folder (`parent_id == drive_id`). -/
def c7File : File := ⟨"f", "d1", "f.bin", "d1", false, "5e4f", 3, "bin"⟩

/-! ## Theorems -/

/-- Claim C1.  Evaluating `get_changed_folders` at a folder-changelog row whose
`deleted` flag is `true` returns the row as a `Created` entry: the `From`
conversion of `folder.rs` maps `deleted = true` to `Created` and
`deleted = false` to `Deleted`, the opposite of the claim. -/
theorem c1_deleted_row_returned_as_created :
    c1Row.deleted = true ∧
    changedFolderGetAll "d1" c1Store =
      [ChangedFolder.Created ⟨"f1", "d1", "Docs", false, some "d1"⟩] :=
  ⟨rfl, rfl⟩

/-- Claim C2.  Evaluating `merge_changes` for drive `d1` on a change stream
holding one `ItemChanged` whose item moved to drive `d2`: the merge commits,
yet folder `x` is still present in `d1`'s folder table (and a row for `x` was
upserted under `d2`).  The item is not treated as a removal from `d1`:
`item_to_change` is never applied. -/
theorem c2_cross_drive_item_not_removed :
    c2Folder.driveId ≠ "d1" ∧
    (mergeChanges "d1" [Change.ItemChanged (Item.folder c2Folder)] "t1" c2Store).map
        (fun s => (s.folders.any (fun f => f.id == "x" && f.driveId == "d1"),
                   s.folders.any (fun f => f.id == "x" && f.driveId == "d2"))) =
      .ok (true, true) :=
  ⟨by decide, rfl⟩

/-- Claim C3 (counterexample to the claim as stated).  A torn change page makes
`sync_drive` surface `PartialChangeList`, but the store state is *not*
unchanged: the folder/file changelogs were cleared before the merge began. -/
theorem c3_partial_change_list_store_changed :
    (syncDrive c3Fetcher "d1" c3Store).1 =
      .error (Error.PartialChangeList DbError.DataIntegrity) ∧
    (syncDrive c3Fetcher "d1" c3Store).2 ≠ c3Store :=
  ⟨rfl, by decide⟩

/-- Claim C5 (counterexample to the claim as stated).  With no remote activity
the second `sync_drive` returns `Ok`, but it does mutate the store: the
pending changelog row is deleted by the initial `clear_changelog`. -/
theorem c5_quiet_sync_mutates_changelog :
    (syncDrive c5Fetcher "d1" c5Store).1 = .ok () ∧
    (syncDrive c5Fetcher "d1" c5Store).2 ≠ c5Store :=
  ⟨rfl, by decide⟩

/-- Claim C7.  Evaluating the bootstrap on a listing holding a single file
whose parent is the root folder: the root folder is inserted, yet the file is
skipped (`insert_files` looks its parent up among the *listing's* folders,
which never include the root). -/
theorem c7_file_under_root_skipped :
    c7File.parent = "d1" ∧
    (dbAddDrive "d1" "Team" "t0" [Item.file c7File] emptyStore).map
        (fun s => (s.files, s.folders.any (fun f => f.id == "d1" && f.parent == none))) =
      .ok ([], true) :=
  ⟨rfl, rfl⟩

theorem clearChangelog_drives (d : String) (s : Store) :
    (clearChangelogStore d s).drives = s.drives := rfl

theorem clearChangelog_folders (d : String) (s : Store) :
    (clearChangelogStore d s).folders = s.folders := rfl

theorem clearChangelog_files (d : String) (s : Store) :
    (clearChangelogStore d s).files = s.files := rfl

theorem clearChangelog_folder_filter (d : String) (s : Store) :
    (clearChangelogStore d s).folderChangelog.filter (fun r => r.driveId == d) = [] := by
  simp only [clearChangelogStore, changedFileClear, changedFolderClear, List.filter_filter]
  simp

theorem clearChangelog_file_filter (d : String) (s : Store) :
    (clearChangelogStore d s).fileChangelog.filter (fun r => r.driveId == d) = [] := by
  simp only [clearChangelogStore, changedFileClear, changedFolderClear, List.filter_filter]
  simp

/-- Claim C5 (amended).  When the fetched token equals the stored one,
`sync_drive` returns `Ok` having cleared the drive's folder and file
changelogs and performing no other store mutation: drives (hence the page
token), folders and files are untouched and the drive's changelogs are left
empty. -/
theorem c5_amended_short_circuit (fetch : Fetcher) (d : String) (s : Store)
    (drive : DriveRow) (cs : List Change)
    (hget : driveGetById d (clearChangelogStore d s) = some drive)
    (hch : fetch.changes d drive.pageToken = (cs, drive.pageToken)) :
    syncDrive fetch d s = (.ok (), clearChangelogStore d s) ∧
    (syncDrive fetch d s).2.drives = s.drives ∧
    (syncDrive fetch d s).2.folders = s.folders ∧
    (syncDrive fetch d s).2.files = s.files ∧
    (syncDrive fetch d s).2.folderChangelog.filter (fun r => r.driveId == d) = [] ∧
    (syncDrive fetch d s).2.fileChangelog.filter (fun r => r.driveId == d) = [] := by
  have hmain : syncDrive fetch d s = (.ok (), clearChangelogStore d s) := by
    simp only [syncDrive, hget, hch]
    simp
  refine ⟨hmain, ?_, ?_, ?_, ?_, ?_⟩ <;> rw [hmain]
  · exact clearChangelog_drives d s
  · exact clearChangelog_folders d s
  · exact clearChangelog_files d s
  · exact clearChangelog_folder_filter d s
  · exact clearChangelog_file_filter d s

/-- Witness for `c5_amended_short_circuit` at a concrete quiet remote. -/
theorem c5_amended_short_circuit_witness :
    driveGetById "d1" (clearChangelogStore "d1" c5Store) = some ⟨"d1", "t0"⟩ ∧
    c5Fetcher.changes "d1" "t0" = ([], "t0") ∧
    syncDrive c5Fetcher "d1" c5Store = (.ok (), clearChangelogStore "d1" c5Store) :=
  ⟨rfl, rfl, (c5_amended_short_circuit c5Fetcher "d1" c5Store ⟨"d1", "t0"⟩ [] rfl rfl).1⟩

/-- Claim C3 (amended).  When the merge transaction fails with a foreign-key
(`DataIntegrity`) error, `sync_drive` surfaces `PartialChangeList` and the
merge transaction is rolled back: drives (hence the page token), folders and
files keep their pre-sync values, and the drive is still found with its
pre-sync page token; the folder and file changelogs, cleared by `sync_drive`
before the merge, are left empty. -/
theorem c3_amended_merge_rollback (fetch : Fetcher) (d : String) (s : Store)
    (drive : DriveRow) (cs : List Change) (tok : String)
    (hget : driveGetById d (clearChangelogStore d s) = some drive)
    (hch : fetch.changes d drive.pageToken = (cs, tok))
    (hne : (tok == drive.pageToken) = false)
    (hmerge : mergeChanges d cs tok (clearChangelogStore d s) = .error .DataIntegrity) :
    syncDrive fetch d s =
      (.error (.PartialChangeList .DataIntegrity), clearChangelogStore d s) ∧
    (syncDrive fetch d s).2.drives = s.drives ∧
    (syncDrive fetch d s).2.folders = s.folders ∧
    (syncDrive fetch d s).2.files = s.files ∧
    driveGetById d (syncDrive fetch d s).2 = some drive := by
  have hmain : syncDrive fetch d s =
      (.error (.PartialChangeList .DataIntegrity), clearChangelogStore d s) := by
    simp only [syncDrive, hget, hch, hne, hmerge]
    simp [errorOfDbError]
  refine ⟨hmain, ?_, ?_, ?_, ?_⟩ <;> rw [hmain]
  · exact clearChangelog_drives d s
  · exact clearChangelog_folders d s
  · exact clearChangelog_files d s
  · exact hget

/-- Witness for `c3_amended_merge_rollback` at the concrete torn page. -/
theorem c3_amended_merge_rollback_witness :
    driveGetById "d1" (clearChangelogStore "d1" c3Store) = some ⟨"d1", "t0"⟩ ∧
    c3Fetcher.changes "d1" "t0" = ([Change.ItemChanged (Item.file c3File)], "t1") ∧
    mergeChanges "d1" [Change.ItemChanged (Item.file c3File)] "t1"
        (clearChangelogStore "d1" c3Store) = .error .DataIntegrity ∧
    syncDrive c3Fetcher "d1" c3Store =
      (.error (.PartialChangeList .DataIntegrity), clearChangelogStore "d1" c3Store) :=
  ⟨rfl, rfl, rfl,
    (c3_amended_merge_rollback c3Fetcher "d1" c3Store ⟨"d1", "t0"⟩
      [Change.ItemChanged (Item.file c3File)] "t1" rfl rfl rfl rfl).1⟩

theorem folderCreate_ok_eq {f : Folder} {s s' : Store}
    (h : folderCreate f s = .ok s') : s' = insertFolderRow f s := by
  unfold folderCreate at h
  split at h
  · exact Except.noConfusion h
  · split at h
    · exact Except.noConfusion h
    · split at h
      · exact (Except.ok.inj h).symm
      · split at h
        · exact (Except.ok.inj h).symm
        · exact Except.noConfusion h

theorem fileCreate_ok_eq {f : File} {s s' : Store}
    (h : fileCreate f s = .ok s') : s' = insertFileRow f s := by
  unfold fileCreate at h
  split at h
  · exact Except.noConfusion h
  · split at h
    · exact Except.noConfusion h
    · split at h
      · exact (Except.ok.inj h).symm
      · exact Except.noConfusion h

theorem driveCreate_ok_eq {id tok : String} {s s' : Store}
    (h : driveCreate id tok s = .ok s') :
    s' = { s with drives := s.drives ++ [⟨id, tok⟩] } := by
  unfold driveCreate at h
  split at h
  · exact Except.noConfusion h
  · exact (Except.ok.inj h).symm

/-- `process_folders`' inner loop never touches drives or files and only adds
folder rows. -/
theorem processChildren_store_inv (parent : Option String) (cs : List Folder) :
    ∀ (ids : List String) (s : Store),
    (processChildren parent cs ids s).2.2.drives = s.drives ∧
    (processChildren parent cs ids s).2.2.files = s.files ∧
    ∀ g ∈ s.folders, g ∈ (processChildren parent cs ids s).2.2.folders := by
  induction cs with
  | nil => exact fun ids s => ⟨rfl, rfl, fun g hg => hg⟩
  | cons f rest ih =>
    intro ids s
    simp only [processChildren]
    split
    · exact ih ids s
    · cases hc : folderCreate f s with
      | ok s' =>
        have hs' := folderCreate_ok_eq hc
        subst hs'
        obtain ⟨h1, h2, h3⟩ := ih (ids ++ [f.id]) (insertFolderRow f s)
        exact ⟨h1, h2, fun g hg => h3 g (List.mem_append_left _ hg)⟩
      | error e => exact ih ids s

/-- The BFS loop never touches drives or files and only adds folder rows. -/
theorem processFoldersLoop_store_inv (d : String) (fs : List Folder) :
    ∀ (fuel : Nat) (queue : List (Option String)) (ids : List String) (s : Store),
    (processFoldersLoop d fs fuel queue ids s).drives = s.drives ∧
    (processFoldersLoop d fs fuel queue ids s).files = s.files ∧
    ∀ g ∈ s.folders, g ∈ (processFoldersLoop d fs fuel queue ids s).folders := by
  intro fuel
  induction fuel with
  | zero => exact fun queue ids s => ⟨rfl, rfl, fun g hg => hg⟩
  | succ fuel ih =>
    intro queue ids s
    cases queue with
    | nil => exact ⟨rfl, rfl, fun g hg => hg⟩
    | cons parent rest =>
      simp only [processFoldersLoop]
      obtain ⟨hc1, hc2, hc3⟩ := processChildren_store_inv parent (childrenOf fs parent) ids s
      obtain ⟨h1, h2, h3⟩ := ih
        (rest ++ (processChildren parent (childrenOf fs parent) ids s).2.1)
        (processChildren parent (childrenOf fs parent) ids s).1
        (processChildren parent (childrenOf fs parent) ids s).2.2
      exact ⟨h1.trans hc1, h2.trans hc2, fun g hg => h3 g (hc3 g hg)⟩

/-- `insert_files` never touches drives or folders. -/
theorem insertFilesLoop_store_inv (fs : List Folder) (items : List Item) :
    ∀ s : Store,
    (insertFilesLoop fs items s).drives = s.drives ∧
    (insertFilesLoop fs items s).folders = s.folders := by
  induction items with
  | nil => exact fun s => ⟨rfl, rfl⟩
  | cons i rest ih =>
    intro s
    cases i with
    | folder f => exact ih s
    | file f =>
      simp only [insertFilesLoop]
      split
      · exact ih s
      · cases hc : fileCreate f s with
        | ok s' =>
          have hs' := fileCreate_ok_eq hc
          subst hs'
          exact ih (insertFileRow f s)
        | error e => exact ih s

theorem folderExists_iff {id driveId : String} {s : Store} :
    folderExists id driveId s = true ↔
      ∃ g ∈ s.folders, g.id = id ∧ g.driveId = driveId := by
  simp [folderExists, List.any_eq_true]

theorem driveExists_iff {d : String} {s : Store} :
    driveExists d s = true ↔ ∃ r ∈ s.drives, r.id = d := by
  simp [driveExists, List.any_eq_true]

theorem insertFolderRow_folders (f : Folder) (s : Store) :
    (insertFolderRow f s).folders = s.folders ++ [f] := rfl

theorem folderCreate_pk_error (f : Folder) (s : Store)
    (hpk : folderExists f.id f.driveId s = true) :
    folderCreate f s = .error .UniqueViolation := by
  unfold folderCreate
  rw [if_pos hpk]

theorem folderExists_insert (x did : String) (f : Folder) (s : Store)
    (h : folderExists x did s = true) :
    folderExists x did (insertFolderRow f s) = true := by
  apply folderExists_iff.mpr
  rw [insertFolderRow_folders]
  rcases folderExists_iff.mp h with ⟨g, hg, h1, h2⟩
  exact ⟨g, List.mem_append_left _ hg, h1, h2⟩

theorem folderCreate_ok_root (f : Folder) (s : Store)
    (hpk : folderExists f.id f.driveId s = false)
    (hdrv : driveExists f.driveId s = true)
    (hpar : f.parent = none) :
    folderCreate f s = .ok (insertFolderRow f s) := by
  unfold folderCreate
  rw [if_neg (by simp [hpk]), if_neg (by simp [hdrv]), hpar]

theorem folderCreate_ok_child (f : Folder) (s : Store) (x : String)
    (hpk : folderExists f.id f.driveId s = false)
    (hdrv : driveExists f.driveId s = true)
    (hpar : f.parent = some x)
    (hx : folderExists x f.driveId s = true) :
    folderCreate f s = .ok (insertFolderRow f s) := by
  have hx' : folderExists x f.driveId (insertFolderRow f s) = true :=
    folderExists_insert x f.driveId f s hx
  unfold folderCreate
  rw [if_neg (by simp [hpk]), if_neg (by simp [hdrv]), hpar]
  show (if folderExists x f.driveId (insertFolderRow f s) = true
    then Except.ok (insertFolderRow f s) else Except.error DbError.DataIntegrity) = _
  rw [if_pos hx']

theorem length_filter_lt_of_mem {α : Type} (p : α → Bool) (l : List α) (a : α)
    (ha : a ∈ l) (hpa : p a = false) : (l.filter p).length < l.length := by
  induction l with
  | nil => cases ha
  | cons x xs ih =>
    rw [List.filter_cons]
    rcases List.mem_cons.mp ha with rfl | ha'
    · rw [if_neg (by simp [hpa])]
      exact Nat.lt_succ_of_le (List.length_filter_le _ _)
    · split
      · simpa using Nat.succ_lt_succ (ih ha')
      · exact Nat.lt_succ_of_lt (ih ha')

theorem filter_not_contains_append (fs : List Folder) (ids : List String) (a : String) :
    fs.filter (fun g => !((ids ++ [a]).contains g.id)) =
      (fs.filter (fun g => !(ids.contains g.id))).filter (fun g => !(g.id == a)) := by
  rw [List.filter_filter]
  apply List.filter_congr
  intro g _
  by_cases h1 : g.id ∈ ids <;> by_cases h2 : g.id = a <;> simp [h1, h2]

/-- Specification of the inner child-processing loop of the BFS: when the
listing is well-formed, the popped parent is recorded, and the store invariant
holds, the loop grows #folder_ids by exactly the freshly created ids (also the
pushed queue entries), re-establishes the invariant, creates every child of
the parent, creates only listing folders, and consumes ids from the
not-yet-created measure one per push. -/
theorem processChildren_spec (fs : List Folder) (d : String)
    (hdrv : ∀ f ∈ fs, f.driveId = d)
    (hnd : (fs.map Folder.id).Nodup) (x : String) :
    ∀ (cs : List Folder) (ids : List String) (s : Store),
    (∀ f ∈ cs, f ∈ fs ∧ f.parent = some x) →
    x ∈ ids →
    StInv fs d ids s →
    ∃ new : List String,
      (processChildren (some x) cs ids s).1 = ids ++ new ∧
      (processChildren (some x) cs ids s).2.1 = new.map some ∧
      StInv fs d (ids ++ new) (processChildren (some x) cs ids s).2.2 ∧
      (∀ f ∈ cs, f ∈ (processChildren (some x) cs ids s).2.2.folders) ∧
      (∀ f ∈ fs, f ∈ (processChildren (some x) cs ids s).2.2.folders →
        f ∈ s.folders ∨ f.id ∈ new) ∧
      (fs.filter (fun g => !((ids ++ new).contains g.id))).length + new.length ≤
        (fs.filter (fun g => !(ids.contains g.id))).length := by
  intro cs
  induction cs with
  | nil =>
    intro ids s _ _ hinv
    refine ⟨[], by simp [processChildren], by simp [processChildren], ?_, ?_, ?_, ?_⟩
    · simpa using hinv
    · intro f hf
      exact absurd hf (List.not_mem_nil f)
    · intro f _ hmem
      exact Or.inl hmem
    · simp
  | cons f rest ih =>
    intro ids s hcs hx hinv
    obtain ⟨hi1, hi2, hi3, hi4⟩ := hinv
    obtain ⟨hffs, hfpar⟩ := hcs f (List.mem_cons_self f rest)
    have hskip : shouldSkip (some x) ids = false := by
      simp [shouldSkip, hx]
    by_cases hmem : f.id ∈ ids
    · -- the child's id was already created: the insert fails on the primary key
      have hpk : folderExists f.id f.driveId s = true := by
        rcases hi1 f.id hmem with ⟨g, hg, hgid, hgdrv⟩
        exact folderExists_iff.mpr ⟨g, hg, hgid, by rw [hgdrv, hdrv f hffs]⟩
      have hred : processChildren (some x) (f :: rest) ids s =
          processChildren (some x) rest ids s := by
        simp only [processChildren]
        rw [if_neg (by simp [hskip]), folderCreate_pk_error f s hpk]
      rw [hred]
      obtain ⟨new, h1, h2, h3, h4, h5, h6⟩ := ih ids s
        (fun g hg => hcs g (List.mem_cons_of_mem _ hg)) hx ⟨hi1, hi2, hi3, hi4⟩
      refine ⟨new, h1, h2, h3, ?_, h5, h6⟩
      intro g hg
      rcases List.mem_cons.mp hg with rfl | hg'
      · exact (processChildren_store_inv (some x) rest ids s).2.2 g (hi2 g hffs hmem)
      · exact h4 g hg'
    · -- fresh id: the insert succeeds
      have hpk : folderExists f.id f.driveId s = false := by
        cases hfe : folderExists f.id f.driveId s
        · rfl
        · exfalso
          rcases folderExists_iff.mp hfe with ⟨g, hg, hgid, hgdrv⟩
          have hgin : g.id ∈ ids := hi3 g hg (by rw [hgdrv, hdrv f hffs])
          rw [hgid] at hgin
          exact hmem hgin
      have hdrvex : driveExists f.driveId s = true := by
        rw [hdrv f hffs]; exact hi4
      have hxex : folderExists x f.driveId s = true := by
        rcases hi1 x hx with ⟨g, hg, hgid, hgdrv⟩
        exact folderExists_iff.mpr ⟨g, hg, hgid, by rw [hgdrv, hdrv f hffs]⟩
      have hcr : folderCreate f s = .ok (insertFolderRow f s) :=
        folderCreate_ok_child f s x hpk hdrvex hfpar hxex
      have hred : processChildren (some x) (f :: rest) ids s =
          ((processChildren (some x) rest (ids ++ [f.id]) (insertFolderRow f s)).1,
           some f.id ::
             (processChildren (some x) rest (ids ++ [f.id]) (insertFolderRow f s)).2.1,
           (processChildren (some x) rest (ids ++ [f.id]) (insertFolderRow f s)).2.2) := by
        simp only [processChildren]
        rw [if_neg (by simp [hskip]), hcr]
      have hinv' : StInv fs d (ids ++ [f.id]) (insertFolderRow f s) := by
        refine ⟨?_, ?_, ?_, ?_⟩
        · intro y hy
          rcases List.mem_append.mp hy with hy' | hy'
          · rcases hi1 y hy' with ⟨g, hg, hgid, hgdrv⟩
            refine ⟨g, ?_, hgid, hgdrv⟩
            rw [insertFolderRow_folders]
            exact List.mem_append_left _ hg
          · have hyid : y = f.id := List.mem_singleton.mp hy'
            refine ⟨f, ?_, hyid.symm, hdrv f hffs⟩
            rw [insertFolderRow_folders]
            exact List.mem_append_right _ (by simp)
        · intro g hgfs hgid
          rw [insertFolderRow_folders]
          rcases List.mem_append.mp hgid with h' | h'
          · exact List.mem_append_left _ (hi2 g hgfs h')
          · have hgf : g = f :=
              List.inj_on_of_nodup_map hnd hgfs hffs (List.mem_singleton.mp h')
            rw [hgf]
            exact List.mem_append_right _ (by simp)
        · intro g hg hgdrv
          rw [insertFolderRow_folders] at hg
          rcases List.mem_append.mp hg with h' | h'
          · exact List.mem_append_left _ (hi3 g h' hgdrv)
          · have : g = f := List.mem_singleton.mp h'
            rw [this]
            exact List.mem_append_right _ (by simp)
        · exact hi4
      obtain ⟨new', h1, h2, h3, h4, h5, h6⟩ := ih (ids ++ [f.id]) (insertFolderRow f s)
        (fun g hg => hcs g (List.mem_cons_of_mem _ hg))
        (List.mem_append_left _ hx) hinv'
      have hassoc : ids ++ (f.id :: new') = (ids ++ [f.id]) ++ new' :=
        (List.append_assoc ids [f.id] new').symm
      refine ⟨f.id :: new', ?_, ?_, ?_, ?_, ?_, ?_⟩
      · rw [hred]
        show (processChildren (some x) rest (ids ++ [f.id]) (insertFolderRow f s)).1 =
          ids ++ (f.id :: new')
        rw [h1]
        exact List.append_assoc ids [f.id] new'
      · rw [hred]
        show some f.id ::
            (processChildren (some x) rest (ids ++ [f.id]) (insertFolderRow f s)).2.1 =
          (f.id :: new').map some
        rw [h2]
        rfl
      · rw [hred]
        show StInv fs d (ids ++ (f.id :: new'))
          (processChildren (some x) rest (ids ++ [f.id]) (insertFolderRow f s)).2.2
        rw [hassoc]
        exact h3
      · rw [hred]
        intro g hg
        rcases List.mem_cons.mp hg with rfl | hg'
        · show g ∈ (processChildren (some x) rest (ids ++ [g.id])
            (insertFolderRow g s)).2.2.folders
          refine (processChildren_store_inv _ _ _ _).2.2 g ?_
          rw [insertFolderRow_folders]
          exact List.mem_append_right _ (by simp)
        · exact h4 g hg'
      · rw [hred]
        intro g hgfs hgmem
        rcases h5 g hgfs hgmem with h' | h'
        · rw [insertFolderRow_folders] at h'
          rcases List.mem_append.mp h' with h'' | h''
          · exact Or.inl h''
          · have : g = f := List.mem_singleton.mp h''
            exact Or.inr (by rw [this]; exact List.mem_cons_self _ _)
        · exact Or.inr (List.mem_cons_of_mem _ h')
      · -- fuel accounting: one element of the not-created measure per push
        have hstep : (fs.filter (fun g => !((ids ++ [f.id]).contains g.id))).length + 1 ≤
            (fs.filter (fun g => !(ids.contains g.id))).length := by
          rw [filter_not_contains_append]
          have hfmem : f ∈ fs.filter (fun g => !(ids.contains g.id)) :=
            List.mem_filter.mpr ⟨hffs, by simp [hmem]⟩
          exact Nat.succ_le_of_lt
            (length_filter_lt_of_mem (fun g => !(g.id == f.id)) _ f hfmem (by simp))
        simp only [hassoc, List.length_cons]
        omega

/-- Specification of the BFS loop: with a well-formed listing, a queue of
recorded ids, the store invariant, and fuel covering the queue plus the
not-yet-created folders, every queued parent gets all its children inserted,
and every folder inserted during the run gets all its children inserted. -/
theorem processFoldersLoop_spec (fs : List Folder) (d : String)
    (hdrv : ∀ f ∈ fs, f.driveId = d)
    (hnd : (fs.map Folder.id).Nodup) :
    ∀ (fuel : Nat) (queue : List (Option String)) (ids : List String) (s : Store),
    (∀ q ∈ queue, ∃ x, q = some x ∧ x ∈ ids) →
    StInv fs d ids s →
    queue.length + (fs.filter (fun g => !(ids.contains g.id))).length ≤ fuel →
    (∀ q ∈ queue, ∀ f ∈ fs, f.parent = q →
      f ∈ (processFoldersLoop d fs fuel queue ids s).folders) ∧
    (∀ f ∈ fs, f ∈ (processFoldersLoop d fs fuel queue ids s).folders →
      f ∈ s.folders ∨ ∀ g ∈ fs, g.parent = some f.id →
        g ∈ (processFoldersLoop d fs fuel queue ids s).folders) := by
  intro fuel
  induction fuel with
  | zero =>
    intro queue ids s _ _ hfuel
    cases queue with
    | nil =>
      exact ⟨fun q hq' => absurd hq' (List.not_mem_nil q),
             fun f _ hmem => Or.inl hmem⟩
    | cons q qs =>
      exfalso
      simp only [List.length_cons] at hfuel
      omega
  | succ fuel ih =>
    intro queue ids s hq hinv hfuel
    cases queue with
    | nil =>
      exact ⟨fun q hq' => absurd hq' (List.not_mem_nil q),
             fun f _ hmem => Or.inl hmem⟩
    | cons parent rest =>
      obtain ⟨x, rfl, hx⟩ := hq parent (List.mem_cons_self _ _)
      have hcs : ∀ f ∈ childrenOf fs (some x), f ∈ fs ∧ f.parent = some x := by
        intro f hf
        have hmf := List.mem_filter.mp hf
        exact ⟨hmf.1, by simpa using hmf.2⟩
      obtain ⟨new, h1, h2, h3, h4, h5, h6⟩ :=
        processChildren_spec fs d hdrv hnd x (childrenOf fs (some x)) ids s hcs hx hinv
      have hstep : processFoldersLoop d fs (fuel + 1) (some x :: rest) ids s =
          processFoldersLoop d fs fuel
            (rest ++ (processChildren (some x) (childrenOf fs (some x)) ids s).2.1)
            (processChildren (some x) (childrenOf fs (some x)) ids s).1
            (processChildren (some x) (childrenOf fs (some x)) ids s).2.2 := rfl
      rw [hstep, h1, h2]
      have hq' : ∀ q ∈ rest ++ new.map some, ∃ y, q = some y ∧ y ∈ ids ++ new := by
        intro q hq'
        rcases List.mem_append.mp hq' with h' | h'
        · obtain ⟨y, hy1, hy2⟩ := hq q (List.mem_cons_of_mem _ h')
          exact ⟨y, hy1, List.mem_append_left _ hy2⟩
        · rcases List.mem_map.mp h' with ⟨y, hy1, hy2⟩
          exact ⟨y, hy2.symm, List.mem_append_right _ hy1⟩
      have hfuel' : (rest ++ new.map some).length +
          (fs.filter (fun g => !((ids ++ new).contains g.id))).length ≤ fuel := by
        rw [List.length_append, List.length_map]
        simp only [List.length_cons] at hfuel
        omega
      obtain ⟨ihA, ihB⟩ := ih (rest ++ new.map some) (ids ++ new)
        (processChildren (some x) (childrenOf fs (some x)) ids s).2.2 hq' h3 hfuel'
      have hmono := (processFoldersLoop_store_inv d fs fuel (rest ++ new.map some)
        (ids ++ new) (processChildren (some x) (childrenOf fs (some x)) ids s).2.2).2.2
      constructor
      · intro q hq'' f hf hfq
        rcases List.mem_cons.mp hq'' with rfl | h'
        · have hfc : f ∈ childrenOf fs (some x) :=
            List.mem_filter.mpr ⟨hf, by simp [hfq]⟩
          exact hmono f (h4 f hfc)
        · exact ihA q (List.mem_append_left _ h') f hf hfq
      · intro f hf hmem
        rcases ihB f hf hmem with h' | h'
        · rcases h5 f hf h' with h'' | h''
          · exact Or.inl h''
          · exact Or.inr (ihA (some f.id)
              (List.mem_append_right _ (List.mem_map.mpr ⟨f.id, h'', rfl⟩)))
        · exact Or.inr h'

theorem dbAddDrive_eq_of (driveId name pageToken : String) (items : List Item)
    (s s1 s2 : Store)
    (hd : driveCreate driveId pageToken s = .ok s1)
    (hr : folderCreate ⟨driveId, driveId, name, false, none⟩ s1 = .ok s2) :
    dbAddDrive driveId name pageToken items s =
      .ok (insertFilesLoop (listingFolders items) items
        (processFolders driveId (listingFolders items) driveId s2)) := by
  unfold dbAddDrive
  rw [hd]
  show (match folderCreate ⟨driveId, driveId, name, false, none⟩ s1 with
    | .error e => Except.error e
    | .ok s2 => Except.ok (insertFilesLoop (listingFolders items) items
        (processFolders driveId (listingFolders items) driveId s2))) = _
  rw [hr]

/-- Claim C6.  For every acyclic listing of folders each reachable from the
root via parent links (with distinct ids belonging to the drive and none
reusing the root's id), bootstrapping a fresh drive inserts all of those
folders exactly as stated — the statement quantifies over every ordering of
the listing, so the result is independent of the order in which the listing
presents the folders. -/
theorem c6_bootstrap_inserts_all_reachable (d name tok : String) (items : List Item)
    (s : Store)
    (hdrv : ∀ f ∈ listingFolders items, f.driveId = d)
    (hnd : ((listingFolders items).map Folder.id).Nodup)
    (hnr : ∀ f ∈ listingFolders items, f.id ≠ d)
    (hreach : ∀ f ∈ listingFolders items,
      reachesRoot (listingFolders items) d (listingFolders items).length f = true)
    (hnodrive : driveExists d s = false)
    (hnofold : ∀ g ∈ s.folders, g.driveId ≠ d) :
    ∃ s', dbAddDrive d name tok items s = .ok s' ∧
      ∀ f ∈ listingFolders items, f ∈ s'.folders := by
  have hd : driveCreate d tok s = .ok { s with drives := s.drives ++ [⟨d, tok⟩] } := by
    unfold driveCreate
    rw [if_neg (by simp [hnodrive])]
  set s1 : Store := { s with drives := s.drives ++ [⟨d, tok⟩] } with hs1
  have hrootpk : folderExists d d s1 = false := by
    cases hfe : folderExists d d s1
    · rfl
    · exfalso
      rcases folderExists_iff.mp hfe with ⟨g, hg, _, hgdrv⟩
      exact hnofold g hg hgdrv
  have hrootdrv : driveExists d s1 = true := by
    apply driveExists_iff.mpr
    refine ⟨⟨d, tok⟩, ?_, rfl⟩
    show _ ∈ s.drives ++ [(⟨d, tok⟩ : DriveRow)]
    exact List.mem_append_right _ (by simp)
  have hroot : folderCreate ⟨d, d, name, false, none⟩ s1 =
      .ok (insertFolderRow ⟨d, d, name, false, none⟩ s1) :=
    folderCreate_ok_root _ _ hrootpk hrootdrv rfl
  set s2 : Store := insertFolderRow ⟨d, d, name, false, none⟩ s1 with hs2
  have hinv0 : StInv (listingFolders items) d [d] s2 := by
    refine ⟨?_, ?_, ?_, ?_⟩
    · intro y hy
      have hyd : y = d := List.mem_singleton.mp hy
      subst hyd
      refine ⟨⟨y, y, name, false, none⟩, ?_, rfl, rfl⟩
      show _ ∈ s1.folders ++ [(⟨y, y, name, false, none⟩ : Folder)]
      exact List.mem_append_right _ (by simp)
    · intro f hf hid
      exact absurd (List.mem_singleton.mp hid) (hnr f hf)
    · intro g hg hgdrv
      have hg' : g ∈ s1.folders ++ [(⟨d, d, name, false, none⟩ : Folder)] := hg
      rcases List.mem_append.mp hg' with h' | h'
      · exact absurd hgdrv (hnofold g h')
      · have : g = ⟨d, d, name, false, none⟩ := List.mem_singleton.mp h'
        rw [this]
        exact List.mem_singleton.mpr rfl
    · exact hrootdrv
  have hq0 : ∀ q ∈ ([some d] : List (Option String)), ∃ x, q = some x ∧ x ∈ [d] := by
    intro q hq
    exact ⟨d, List.mem_singleton.mp hq, List.mem_singleton.mpr rfl⟩
  have hfuel0 : ([some d] : List (Option String)).length +
      ((listingFolders items).filter
        (fun g => !(([d] : List String).contains g.id))).length ≤
      (listingFolders items).length + 1 := by
    have hle := List.length_filter_le
      (fun g => !(([d] : List String).contains g.id)) (listingFolders items)
    have hone : ([some d] : List (Option String)).length = 1 := rfl
    omega
  obtain ⟨loopA, loopB⟩ := processFoldersLoop_spec (listingFolders items) d hdrv hnd
    ((listingFolders items).length + 1) [some d] [d] s2 hq0 hinv0 hfuel0
  refine ⟨insertFilesLoop (listingFolders items) items
    (processFolders d (listingFolders items) d s2),
    dbAddDrive_eq_of d name tok items s s1 s2 hd hroot, ?_⟩
  intro f hf
  have hfolders := (insertFilesLoop_store_inv (listingFolders items) items
    (processFolders d (listingFolders items) d s2)).2
  rw [hfolders]
  show f ∈ (processFoldersLoop d (listingFolders items)
    ((listingFolders items).length + 1) [some d] [d] s2).folders
  have hcomplete : ∀ (n : Nat), ∀ g ∈ listingFolders items,
      reachesRoot (listingFolders items) d n g = true →
      g ∈ (processFoldersLoop d (listingFolders items)
        ((listingFolders items).length + 1) [some d] [d] s2).folders := by
    intro n
    induction n with
    | zero =>
      intro g _ hr
      exact absurd hr (by simp [reachesRoot])
    | succ n ihn =>
      intro g hg hr
      simp only [reachesRoot] at hr
      rcases hgp : g.parent with _ | p
      · rw [hgp] at hr
        exact absurd hr (by simp)
      · rw [hgp] at hr
        have hr' := hr
        simp only [Bool.or_eq_true, beq_iff_eq, List.any_eq_true, Bool.and_eq_true] at hr'
        rcases hr' with hpd | ⟨g', hg', hgid, hgr⟩
        · exact loopA (some d) (List.mem_singleton.mpr rfl) g hg (by rw [hgp, hpd])
        · have hgmem := ihn g' hg' hgr
          rcases loopB g' hg' hgmem with hins | hchild
          · exfalso
            have hins' : g' ∈ s1.folders ++ [(⟨d, d, name, false, none⟩ : Folder)] := hins
            rcases List.mem_append.mp hins' with h' | h'
            · exact hnofold g' h' (hdrv g' hg')
            · have : g' = ⟨d, d, name, false, none⟩ := List.mem_singleton.mp h'
              exact hnr g' hg' (by rw [this])
          · exact hchild g hg (by rw [hgp, hgid])
  exact hcomplete (listingFolders items).length f hf (hreach f hf)

/-- Witness for `c6_bootstrap_inserts_all_reachable` on a concrete listing
that presents the child `b` (parent `a`) before its parent `a` (parent =
root `d1`). -/
theorem c6_bootstrap_inserts_all_reachable_witness :
    (∀ f ∈ listingFolders c6Items, f.driveId = "d1") ∧
    ((listingFolders c6Items).map Folder.id).Nodup ∧
    (∀ f ∈ listingFolders c6Items, f.id ≠ "d1") ∧
    (∀ f ∈ listingFolders c6Items,
      reachesRoot (listingFolders c6Items) "d1" (listingFolders c6Items).length f = true) ∧
    driveExists "d1" emptyStore = false ∧
    (∃ s', dbAddDrive "d1" "Team" "t0" c6Items emptyStore = .ok s' ∧
      ∀ f ∈ listingFolders c6Items, f ∈ s'.folders) :=
  ⟨by decide, by decide, by decide, by decide, rfl,
    c6_bootstrap_inserts_all_reachable "d1" "Team" "t0" c6Items emptyStore
      (by decide) (by decide) (by decide) (by decide) rfl
      (fun g hg => absurd hg (List.not_mem_nil g))⟩

/-- Claim C4 (counterexample to the claim as stated).  Bootstrapping a listing
with two folders sharing the key `(a, d1)`: the second insertion fails inside
the transaction (`c4Mid` is the state `add_drive` reaches just before it), the
failure is logged and swallowed, and `add_drive` commits with the drive row —
and one `a` row — present. -/
theorem c4_failed_insertion_still_commits :
    folderCreate c4FolderA2 c4Mid = .error .UniqueViolation ∧
    (dbAddDrive "d1" "Team" "t0" c4Items emptyStore).map
        (fun s => (s.drives.any (fun dr => dr.id == "d1"),
                   s.folders.any (fun f => f.id == "a"))) = .ok (true, true) :=
  ⟨rfl, rfl⟩

/-- Claim C4 (amended).  `add_drive` is all-or-nothing at the transaction
boundary: either it fails and the store is exactly the pre-call store (the
transaction is rolled back), or it succeeds and the drive row and its root
folder are present; failures of individual folder or file insertions inside
the transaction are logged and skipped rather than aborting, and the final
changelog clear happens after the commit. -/
theorem dbAddDrive_ok_shape (driveId name pageToken : String) (items : List Item)
    (s s' : Store) (h : dbAddDrive driveId name pageToken items s = .ok s') :
    ∃ s1 s2, driveCreate driveId pageToken s = .ok s1 ∧
      folderCreate ⟨driveId, driveId, name, false, none⟩ s1 = .ok s2 ∧
      s' = insertFilesLoop (listingFolders items) items
        (processFolders driveId (listingFolders items) driveId s2) := by
  unfold dbAddDrive at h
  split at h
  · exact Except.noConfusion h
  · split at h
    · exact Except.noConfusion h
    · exact ⟨_, _, by assumption, by assumption, (Except.ok.inj h).symm⟩

theorem c4_amended_add_drive_transaction (fetch : Fetcher) (driveId : String) (s : Store) :
    ((coordAddDrive fetch driveId s).1 ≠ .ok () ∧ (coordAddDrive fetch driveId s).2 = s) ∨
    ((coordAddDrive fetch driveId s).1 = .ok () ∧
      (coordAddDrive fetch driveId s).2.drives.any (fun dr => dr.id == driveId) = true ∧
      (coordAddDrive fetch driveId s).2.folders.any
        (fun f => f.id == driveId && f.driveId == driveId && f.parent == none) = true) := by
  unfold coordAddDrive
  cases h : dbAddDrive driveId (fetch.driveName driveId) (fetch.startPageToken driveId)
      (fetch.allFiles driveId) s with
  | error e => exact Or.inl ⟨by simp, rfl⟩
  | ok s' =>
    obtain ⟨s1, s2, hd, hr, hs'⟩ := dbAddDrive_ok_shape _ _ _ _ _ _ h
    have hs1 := driveCreate_ok_eq hd
    have hs2 := folderCreate_ok_eq hr
    obtain ⟨hp1, hp2, hp3⟩ := processFoldersLoop_store_inv driveId
      (listingFolders (fetch.allFiles driveId))
      ((listingFolders (fetch.allFiles driveId)).length + 1) [some driveId] [driveId] s2
    obtain ⟨hf1, hf2⟩ := insertFilesLoop_store_inv (listingFolders (fetch.allFiles driveId))
      (fetch.allFiles driveId)
      (processFolders driveId (listingFolders (fetch.allFiles driveId)) driveId s2)
    refine Or.inr ⟨rfl, ?_, ?_⟩
    · -- the drive row is present
      have hmem : (⟨driveId, fetch.startPageToken driveId⟩ : DriveRow) ∈ s'.drives := by
        rw [hs', hf1]
        unfold processFolders
        rw [hp1, hs2]
        show _ ∈ s1.drives
        rw [hs1]
        exact List.mem_append_right _ (List.mem_singleton.mpr rfl)
      exact List.any_eq_true.mpr ⟨_, hmem, by simp⟩
    · -- the root folder row is present
      have hmem : (⟨driveId, driveId, fetch.driveName driveId, false, none⟩ : Folder)
          ∈ s'.folders := by
        rw [hs', hf2]
        unfold processFolders
        refine hp3 _ ?_
        rw [hs2]
        show _ ∈ s1.folders ++ _
        exact List.mem_append_right _ (List.mem_singleton.mpr rfl)
      exact List.any_eq_true.mpr ⟨_, hmem, by simp⟩

/-- Claim C9.  One fold step of `merge_changes` on `ItemRemoved(id)`: the
`Remove` op lands in the file map exactly when the file map already holds the
id, and in the folder map otherwise — in particular, for an id never seen in
the page it lands in the folder map. -/
theorem c9_item_removed_routing (d : String) (acc : MergeAcc) (id : String) :
    collectStep d acc (Change.ItemRemoved id) =
      (if mapContains id acc.fileChanges then
        { acc with fileChanges := mapInsert id FileChange.Remove acc.fileChanges }
      else
        { acc with folderChanges := mapInsert id FolderChange.Remove acc.folderChanges }) := by
  simp only [collectStep]
  cases h : mapContains id acc.fileChanges <;> simp [h]

theorem mapLookup_mapInsert {α : Type} (k k' : String) (v : α) (m : List (String × α)) :
    mapLookup k' (mapInsert k v m) = if k = k' then some v else mapLookup k' m := by
  induction m with
  | nil =>
    simp only [mapInsert, mapLookup]
    by_cases h : k = k'
    · rw [if_pos (by simp [h]), if_pos h]
    · rw [if_neg (by simp [h]), if_neg h]
  | cons kv rest ih =>
    obtain ⟨k0, v0⟩ := kv
    simp only [mapInsert]
    by_cases h0 : k0 = k
    · rw [if_pos (by simp [h0])]
      simp only [mapLookup]
      by_cases h : k = k'
      · rw [if_pos (by simp [h]), if_pos h]
      · rw [if_neg (by simp [h]), if_neg h, if_neg (by simp [h0, h])]
    · rw [if_neg (by simp [h0])]
      simp only [mapLookup, ih]
      by_cases hk : k = k'
      · by_cases hk0 : k0 = k'
        · exact absurd (hk0.trans hk.symm) h0
        · simp [hk, hk0]
      · by_cases hk0 : k0 = k'
        · simp [hk, hk0]
        · simp [hk, hk0]

theorem mem_keys_mapInsert {α : Type} (k k' : String) (v : α) (m : List (String × α)) :
    k' ∈ (mapInsert k v m).map Prod.fst ↔ k' = k ∨ k' ∈ m.map Prod.fst := by
  induction m with
  | nil => simp [mapInsert]
  | cons kv rest ih =>
    obtain ⟨k0, v0⟩ := kv
    simp only [mapInsert]
    by_cases h0 : k0 = k
    · subst h0
      simp only [beq_self_eq_true, if_true, List.map_cons, List.mem_cons]
      tauto
    · simp only [beq_iff_eq, h0, if_false, List.map_cons, List.mem_cons, ih]
      tauto

theorem mapInsert_keys_nodup {α : Type} (k : String) (v : α) (m : List (String × α))
    (h : (m.map Prod.fst).Nodup) : ((mapInsert k v m).map Prod.fst).Nodup := by
  induction m with
  | nil => simp [mapInsert]
  | cons kv rest ih =>
    obtain ⟨k0, v0⟩ := kv
    simp only [List.map_cons, List.nodup_cons] at h
    simp only [mapInsert]
    by_cases h0 : k0 = k
    · subst h0
      simp only [beq_self_eq_true, if_true, List.map_cons, List.nodup_cons]
      exact h
    · simp only [beq_iff_eq, h0, if_false, List.map_cons, List.nodup_cons]
      refine ⟨?_, ih h.2⟩
      rw [mem_keys_mapInsert]
      rintro (hk | hk)
      · exact h0 hk
      · exact h.1 hk

theorem mem_mapInsert {α : Type} (k : String) (v : α) (m : List (String × α))
    (kv : String × α) (h : kv ∈ mapInsert k v m) : kv = (k, v) ∨ kv ∈ m := by
  induction m with
  | nil => simpa [mapInsert] using h
  | cons kv0 rest ih =>
    obtain ⟨k0, v0⟩ := kv0
    simp only [mapInsert] at h
    by_cases h0 : k0 = k
    · subst h0
      simp only [beq_self_eq_true, if_true, List.mem_cons] at h
      rcases h with h | h
      · exact Or.inl h
      · exact Or.inr (List.mem_cons_of_mem _ h)
    · simp only [beq_iff_eq, h0, if_false, List.mem_cons] at h
      rcases h with h | h
      · exact Or.inr (by simp [h])
      · rcases ih h with h' | h'
        · exact Or.inl h'
        · exact Or.inr (List.mem_cons_of_mem _ h')

theorem mapInsert_pathMapOk (r : PathChangelogRow) (m : List (String × PathChangelogRow))
    (hm : PathMapOk m) : PathMapOk (mapInsert r.path r m) :=
  ⟨mapInsert_keys_nodup _ _ _ hm.1,
   fun kv hkv => (mem_mapInsert _ _ _ _ hkv).elim (fun h => by subst h; rfl) (hm.2 kv)⟩

theorem foldl_mapInsert_pathMapOk :
    ∀ (l : List PathChangelogRow) (m : List (String × PathChangelogRow)), PathMapOk m →
    PathMapOk (l.foldl (fun m r => mapInsert r.path r m) m) := by
  intro l
  induction l with
  | nil => exact fun m hm => hm
  | cons r rest ih => exact fun m hm => ih _ (mapInsert_pathMapOk r m hm)

theorem getLast?_cons_eq_some {α : Type} (x : α) (xs : List α) :
    ∃ y, (x :: xs).getLast? = some y := by
  induction xs generalizing x with
  | nil => exact ⟨x, rfl⟩
  | cons z zs ih =>
    rcases ih z with ⟨y, hy⟩
    exact ⟨y, by rw [List.getLast?_cons_cons]; exact hy⟩

theorem foldl_mapInsert_lookup (p : String) :
    ∀ (l : List PathChangelogRow) (m : List (String × PathChangelogRow)),
    mapLookup p (l.foldl (fun m r => mapInsert r.path r m) m) =
      (match (l.filter (fun r => r.path == p)).getLast? with
       | some r => some r
       | none => mapLookup p m) := by
  intro l
  induction l with
  | nil => exact fun m => rfl
  | cons r rest ih =>
    intro m
    simp only [List.foldl_cons, List.filter_cons, ih]
    by_cases hp : r.path = p
    · rw [if_pos (by simp [hp])]
      cases hfilt : rest.filter (fun r => r.path == p) with
      | nil =>
        show mapLookup p (mapInsert r.path r m) = some r
        rw [mapLookup_mapInsert, if_pos hp]
      | cons x xs =>
        rw [List.getLast?_cons_cons]
        rcases getLast?_cons_eq_some x xs with ⟨y, hy⟩
        rw [hy]
    · rw [if_neg (by simp [hp])]
      cases hfilt : rest.filter (fun r => r.path == p) with
      | nil =>
        show mapLookup p (mapInsert r.path r m) = mapLookup p m
        rw [mapLookup_mapInsert, if_neg hp]
      | cons x xs =>
        rcases getLast?_cons_eq_some x xs with ⟨y, hy⟩
        rw [hy]

theorem changedPathOfRow_inner (r : PathChangelogRow) :
    (changedPathOfRow r).inner = ⟨r.id, r.driveId, r.path, r.trashed⟩ := by
  rcases r with ⟨id, driveId, path, folder, deleted, trashed⟩
  cases deleted <;> cases folder <;> rfl

theorem values_filter_nil (p : String) (rest : List (String × PathChangelogRow))
    (hpaths : ∀ kv ∈ rest, kv.2.path = kv.1) (hnp : p ∉ rest.map Prod.fst) :
    (rest.map (fun kv => changedPathOfRow kv.2)).filter (fun c => c.inner.path == p) = [] := by
  rw [List.filter_eq_nil_iff]
  intro c hc
  simp only [List.mem_map] at hc
  obtain ⟨kv, hkv, rfl⟩ := hc
  rw [changedPathOfRow_inner]
  simp only [beq_iff_eq]
  intro h
  exact hnp (List.mem_map.mpr ⟨kv, hkv, by rw [← hpaths kv hkv, h]⟩)

theorem values_filter_eq_lookup (p : String) :
    ∀ (m : List (String × PathChangelogRow)), PathMapOk m →
    (m.map (fun kv => changedPathOfRow kv.2)).filter (fun c => c.inner.path == p) =
      (match mapLookup p m with
       | some r => [changedPathOfRow r]
       | none => []) := by
  intro m
  induction m with
  | nil => exact fun _ => rfl
  | cons kv rest ih =>
    intro hm
    obtain ⟨k0, v0⟩ := kv
    have hv0 : v0.path = k0 := hm.2 (k0, v0) (List.mem_cons_self _ _)
    have hnd := hm.1
    simp only [List.map_cons, List.nodup_cons] at hnd
    have hmrest : PathMapOk rest :=
      ⟨hnd.2, fun kv h => hm.2 kv (List.mem_cons_of_mem _ h)⟩
    have hhead : ((changedPathOfRow v0).inner.path == p) = (k0 == p) := by
      rw [changedPathOfRow_inner, show (⟨v0.id, v0.driveId, v0.path, v0.trashed⟩ :
        InnerPath).path = v0.path from rfl, hv0]
    simp only [List.map_cons, List.filter_cons, hhead, mapLookup]
    by_cases hk : k0 = p
    · subst hk
      have hself : (k0 == k0) = true := beq_self_eq_true k0
      rw [if_pos hself, if_pos hself, values_filter_nil k0 rest hmrest.2 hnd.1]
    · have hkb : ¬((k0 == p) = true) := by simp [hk]
      rw [if_neg hkb, if_neg hkb]
      exact ih hmrest

/-- Claim C8.  `ChangedPath::get_all` returns at most one entry per distinct
path string, and the entry kept for a path is the conversion of the latest
fetched row carrying that path (the fold over the map replaces earlier rows
with later ones). -/
theorem c8_changed_paths_latest_per_path (d : String) (rows : List PathChangelogRow)
    (p : String) :
    ((changedPathGetAll d rows).filter (fun c => c.inner.path == p)).length ≤ 1 ∧
    (changedPathGetAll d rows).filter (fun c => c.inner.path == p) =
      (match ((rows.filter (fun r => r.driveId == d)).filter
          (fun r => r.path == p)).getLast? with
       | some r => [changedPathOfRow r]
       | none => []) := by
  have hok : PathMapOk ((rows.filter (fun r => r.driveId == d)).foldl
      (fun m r => mapInsert r.path r m) []) :=
    foldl_mapInsert_pathMapOk _ [] ⟨List.nodup_nil, fun kv h => absurd h (List.not_mem_nil kv)⟩
  have hmain : (changedPathGetAll d rows).filter (fun c => c.inner.path == p) =
      (match ((rows.filter (fun r => r.driveId == d)).filter
          (fun r => r.path == p)).getLast? with
       | some r => [changedPathOfRow r]
       | none => []) := by
    show ((((rows.filter (fun r => r.driveId == d)).foldl
        (fun m r => mapInsert r.path r m) []).map
        (fun kv => changedPathOfRow kv.2)).filter (fun c => c.inner.path == p)) = _
    rw [values_filter_eq_lookup p _ hok, foldl_mapInsert_lookup p _ []]
    cases ((rows.filter (fun r => r.driveId == d)).filter
        (fun r => r.path == p)).getLast? with
    | none => rfl
    | some r => rfl
  refine ⟨?_, hmain⟩
  rw [hmain]
  cases ((rows.filter (fun r => r.driveId == d)).filter
      (fun r => r.path == p)).getLast? with
  | none => simp
  | some r => simp

/-- Claim C10.  `Folder::get_children` never returns `Some` of an empty list:
it returns `none` exactly when the drive has no folder with the given parent,
and otherwise `Some` of the (necessarily non-empty) list of child ids. -/
theorem c10_get_children_not_some_nil (p d : String) (s : Store) :
    getChildren p d s ≠ some [] ∧
    (getChildren p d s = none ↔
      s.folders.filter (fun f => f.parent == some p && f.driveId == d) = []) ∧
    (getChildren p d s).getD [] =
      (s.folders.filter (fun f => f.parent == some p && f.driveId == d)).map Folder.id := by
  cases h : s.folders.filter (fun f => f.parent == some p && f.driveId == d) with
  | nil => simp [getChildren, h]
  | cons a l => simp [getChildren, h]

end Bernard
